import Mathlib

/-!
Verification development for the grep-style regular-expression engine in
src/main.rs.  The pattern compiler (`parseLoop` / `parsePattern`), the
backtracking matcher with capture state (`matchRec` / `matchWC`), the search
driver (`generalMatch` / `matchPattern`) and the two hardcoded shortcut
matchers (`matchISeePattern` / `matchAbcDefPattern`) are shallowly embedded
as executable Lean functions over `List Char`.

Recursions that the Rust source realizes as unbounded loops carry an explicit
fuel parameter (`Nat`, structurally decreasing) so that every definition is
computable by kernel reduction.  The fuel bounds chosen by the top-level
drivers are generous: every run of the Rust program that terminates is
reproduced exactly.  (The one behavior that cannot be reproduced is genuine
divergence of the source: the `Plus`-over-group greedy loop in the Rust code
spins forever when an alternative matches without consuming input; the fueled
embedding instead stops iterating when fuel runs out.)
-/

set_option maxRecDepth 8000

namespace GrepRust

/-- Rust `char::is_ascii_digit`. -/
def isAsciiDigit (c : Char) : Bool := '0' ≤ c && c ≤ '9'

/-- Rust `char::is_ascii_alphabetic`. -/
def isAsciiAlphabetic (c : Char) : Bool := ('A' ≤ c && c ≤ 'Z') || ('a' ≤ c && c ≤ 'z')

/-- Rust `char::is_whitespace`: the Unicode White_Space property. -/
def isRustWhitespace (c : Char) : Bool :=
  [0x09, 0x0A, 0x0B, 0x0C, 0x0D, 0x20, 0x85, 0xA0, 0x1680,
   0x2000, 0x2001, 0x2002, 0x2003, 0x2004, 0x2005, 0x2006, 0x2007,
   0x2008, 0x2009, 0x200A, 0x2028, 0x2029, 0x202F, 0x205F, 0x3000].contains c.toNat

/-- The `Token` enum of src/main.rs (the pattern AST). -/
inductive Token where
  | Literal (c : Char)
  | Digit
  | Word
  | Whitespace
  | CharClass (chars : List Char)
  | NegCharClass (chars : List Char)
  | Plus (inner : Token)
  | Question (inner : Token)
  | Dot
  | Group (alternatives : List (List Token)) (groupNum : Nat)
  | Backreference (n : Nat)

/-- `matches_token` of src/main.rs: single-character test of a token.
Composite tokens (`Plus`, `Question`, `Group`, `Backreference`) never match a
single character. -/
def matchesToken (ch : Char) : Token → Bool
  | .Literal expected => ch == expected
  | .Digit => isAsciiDigit ch
  | .Word => isAsciiAlphabetic ch || isAsciiDigit ch
  | .Whitespace => isRustWhitespace ch
  | .CharClass chars => chars.contains ch
  | .NegCharClass chars => !chars.contains ch
  | .Plus _ => false
  | .Question _ => false
  | .Group _ _ => false
  | .Backreference _ => false
  | .Dot => true

/-- `get_max_group_number` of src/main.rs (fueled: the Rust function recurses
on the token tree; any fuel at least the tree depth gives the source's
value).  It looks at `Group` tokens, and at `Group`s directly inside a
`Plus`/`Question`, exactly as the source does. -/
def getMaxGroupNumberF : Nat → List Token → Nat
  | 0, _ => 0
  | _, [] => 0
  | fuel + 1, t :: rest =>
    let here :=
      match t with
      | .Group alts g => alts.foldl (fun acc alt => max acc (getMaxGroupNumberF fuel alt)) g
      | .Plus inner =>
        match inner with
        | .Group alts g => alts.foldl (fun acc alt => max acc (getMaxGroupNumberF fuel alt)) g
        | _ => 0
      | .Question inner =>
        match inner with
        | .Group alts g => alts.foldl (fun acc alt => max acc (getMaxGroupNumberF fuel alt)) g
        | _ => 0
      | _ => 0
    max here (getMaxGroupNumberF fuel rest)

/-- The capture store: index `i` holds group `i+1`'s last captured text.
Rust uses `Vec<String>` and conflates "unset" with the empty string. -/
abbrev Captures := List (List Char)

/-- The `while captures.len() < max { captures.push(String::new()) }` growth
step of `matches_at_position_with_captures` (and of the `Group` arm). -/
def growCaptures (caps : Captures) (n : Nat) : Captures :=
  caps ++ List.replicate (n - caps.length) []

/-- Length of the maximal run of characters satisfying `p` at the head. -/
def countWhile (p : Char → Bool) : List Char → Nat
  | [] => 0
  | c :: rest => if p c then countWhile p rest + 1 else 0

/-- The greedy iteration loop of the `Plus`-over-`Group` arm: repeatedly try
`tryOnce` (first alternative that matches, returning its end position),
recording every end position reached, until no alternative matches.  The
Rust loop has no bound and diverges if an alternative succeeds without
advancing; the fuel caps the number of iterations. -/
def plusIter (tryOnce : Nat → Option Nat) : Nat → Nat → List Nat
  | 0, _ => []
  | fuel + 1, current =>
    match tryOnce current with
    | some e => e :: plusIter tryOnce fuel e
    | none => []

/-- The backtracking loop shared by both `Plus` arms: try the continuation
`step` at each recorded end position in the given order, threading the
capture store exactly as the `&mut` reference does, and return the first
success. -/
def plusBacktrack (step : Nat → Captures → Option Nat × Captures) :
    List Nat → Captures → Option Nat × Captures
  | [], caps => (none, caps)
  | e :: more, caps =>
    match step e caps with
    | (some f, caps') => (some f, caps')
    | (none, caps') => plusBacktrack step more caps'

/-- End positions tried by the single-token `Plus` backtracking loop
`for num_matches in (1..=max_matches).rev()`: `pos + max`, …, `pos + 1`. -/
def descPositions (pos maxMatches : Nat) : List Nat :=
  (List.range maxMatches).map (fun i => pos + maxMatches - i)

/-- `matches_at_position_recursive` of src/main.rs.  The Rust signature is
`(&[char], &[Token], usize, usize, &mut Vec<String>) -> Option<usize>`; the
embedding passes the remaining token suffix instead of an index, and returns
the final state of the `&mut` capture vector alongside the result.  `fuel`
bounds the recursion depth (structurally); the drivers pass enough fuel for
every terminating source run. -/
def matchRec : Nat → List Char → List Token → Nat → Captures → Option Nat × Captures
  | 0, _, _, _, caps => (none, caps)
  | fuel + 1, input, tokens, pos, caps =>
    match tokens with
    | [] => (some pos, caps)
    | t :: rest =>
      match t with
      | .Question inner =>
        match input[pos]? with
        | some c =>
          if matchesToken c inner then
            match matchRec fuel input rest (pos + 1) caps with
            | (some e, caps') => (some e, caps')
            | (none, caps') => matchRec fuel input rest pos caps'
          else matchRec fuel input rest pos caps
        | none => matchRec fuel input rest pos caps
      | .Plus inner =>
        match inner with
        | .Group alts _g =>
          let tryOnce := fun p =>
            alts.findSome? (fun alt =>
              (matchRec fuel input alt p
                (growCaptures caps (getMaxGroupNumberF fuel alt))).1)
          let positions := plusIter tryOnce fuel pos
          if positions.isEmpty then (none, caps)
          else
            plusBacktrack (fun e caps' => matchRec fuel input rest e caps')
              positions.reverse caps
        | _ =>
          match input[pos]? with
          | some c =>
            if matchesToken c inner then
              let maxMatches :=
                1 + countWhile (fun ch => matchesToken ch inner) (input.drop (pos + 1))
              plusBacktrack (fun e caps' => matchRec fuel input rest e caps')
                (descPositions pos maxMatches) caps
            else (none, caps)
          | none => (none, caps)
      | .Group alts gnum =>
        let attempt := fun alt =>
          let temp := growCaptures caps gnum
          match matchRec fuel input alt pos
              (growCaptures temp (getMaxGroupNumberF fuel alt)) with
          | (some e, temp') =>
            let capturedText := (input.drop pos).take (e - pos)
            let temp'' := temp'.set (gnum - 1) capturedText
            match matchRec fuel input rest e temp'' with
            | (some f, finalCaps) => some (f, finalCaps)
            | (none, _) => none
          | (none, _) => none
        match alts.findSome? attempt with
        | some (f, finalCaps) => (some f, finalCaps)
        | none => (none, caps)
      | .Backreference n =>
        if n = 0 then (none, caps)
        else if caps.length < n then (none, caps)
        else
          let capturedText := caps.getD (n - 1) []
          if input.length < pos + capturedText.length then (none, caps)
          else if (input.drop pos).take capturedText.length = capturedText then
            matchRec fuel input rest (pos + capturedText.length) caps
          else (none, caps)
      | _ =>
        match input[pos]? with
        | some c =>
          if matchesToken c t then matchRec fuel input rest (pos + 1) caps
          else (none, caps)
        | none => (none, caps)

/-- `matches_at_position_with_captures` of src/main.rs: grow the capture
vector to the pattern's maximal group number, then match. -/
def matchWC (fuel : Nat) (input : List Char) (tokens : List Token) (startPos : Nat)
    (caps : Captures) : Option Nat × Captures :=
  matchRec fuel input tokens startPos (growCaptures caps (getMaxGroupNumberF fuel tokens))

/-- Range sugar inside a character class: Rust runs
`for c in start_char as u8 ..= end_char as u8 { char_class.push(c as char) }`,
truncating both endpoints to their low byte. -/
def expandRange (startChar endChar : Char) : List Char :=
  (List.range' (startChar.toNat % 256) (endChar.toNat % 256 + 1 - startChar.toNat % 256)).map
    Char.ofNat

/-- The `while i < chars.len() && chars[i] != ']'` body collecting a character
class, with the `X-Y` range case guarded by `i + 2 < chars.len()` and
`chars[i+2] != ']'` exactly as in the source.  Returns the collected class
and the index where the loop stopped. -/
def parseClassLoop : Nat → List Char → Nat → List Char → List Char × Nat
  | 0, _, i, acc => (acc, i)
  | fuel + 1, chars, i, acc =>
    match chars[i]? with
    | none => (acc, i)
    | some c =>
      if c = ']' then (acc, i)
      else if i + 2 < chars.length ∧ chars.getD (i + 1) ' ' = '-' ∧
          chars.getD (i + 2) ' ' ≠ ']' then
        parseClassLoop fuel chars (i + 3) (acc ++ expandRange c (chars.getD (i + 2) ' '))
      else parseClassLoop fuel chars (i + 1) (acc ++ [c])

/-- `parse_alternation` of src/main.rs.  State: position `i`, group counter
`gc` (the `&mut usize`), the completed alternatives and the tokens of the
current alternative.  Returns `(alternatives, stop index, group counter)`. -/
def parseLoop : Nat → List Char → Nat → Nat → List (List Token) → List Token →
    List (List Token) × Nat × Nat
  | 0, _, i, gc, alts, cur => (alts ++ [cur], i, gc)
  | fuel + 1, chars, i, gc, alts, cur =>
    match chars[i]? with
    | none => (alts ++ [cur], i, gc)
    | some c =>
      if c = '|' then parseLoop fuel chars (i + 1) gc (alts ++ [cur]) []
      else if c = ')' then (alts ++ [cur], i, gc)
      else if c = '(' then
        let inner := parseLoop fuel chars (i + 1) (gc + 1) [] []
        parseLoop fuel chars (inner.2.1 + 1) inner.2.2 alts (cur ++ [.Group inner.1 gc])
      else if c = '\\' ∧ i + 1 < chars.length then
        let c2 := chars.getD (i + 1) ' '
        let tok :=
          if c2 = 'd' then Token.Digit
          else if c2 = 'w' then Token.Word
          else if c2 = 's' then Token.Whitespace
          else if isAsciiDigit c2 then Token.Backreference (c2.toNat - '0'.toNat)
          else Token.Literal c2
        parseLoop fuel chars (i + 2) gc alts (cur ++ [tok])
      else if c = '[' then
        let negated : Bool := chars[i + 1]? == some '^'
        let i2 := if negated then i + 2 else i + 1
        let cls := parseClassLoop fuel chars i2 []
        if cls.2 < chars.length then
          let tok := if negated then Token.NegCharClass cls.1 else Token.CharClass cls.1
          parseLoop fuel chars (cls.2 + 1) gc alts (cur ++ [tok])
        else parseLoop fuel chars cls.2 gc alts cur
      else if c = '+' then
        let cur' :=
          match cur.getLast? with
          | some last => cur.dropLast ++ [Token.Plus last]
          | none => cur
        parseLoop fuel chars (i + 1) gc alts cur'
      else if c = '?' then
        let cur' :=
          match cur.getLast? with
          | some last => cur.dropLast ++ [Token.Question last]
          | none => cur
        parseLoop fuel chars (i + 1) gc alts cur'
      else if c = '.' then parseLoop fuel chars (i + 1) gc alts (cur ++ [.Dot])
      else parseLoop fuel chars (i + 1) gc alts (cur ++ [.Literal c])

/-- `parse_pattern` of src/main.rs: run `parse_alternation` from position 0
with the group counter starting at 1.  The fuel bound exceeds the recursion
depth of every source run (the source loop consumes at least one character
per step, plus two extra frames per group). -/
def parsePattern (pattern : List Char) : List (List Token) :=
  (parseLoop (3 * pattern.length + 8) pattern 0 1 [] []).1

/-- Compare `chars[pos .. pos + s.length]` with `s` (the character-by-
character comparisons of the shortcut matchers). -/
def sliceEq (chars : List Char) (pos : Nat) (s : List Char) : Bool :=
  (chars.drop pos).take s.length == s

/-- The `while i < chars.len()` loop of `match_i_see_pattern`, returning the
final `(i, matched_count)`.  Each arm mirrors a `break` (returning the
current state) or a continuation of the loop. -/
def iSeeLoop : Nat → List Char → Nat → Nat → Nat × Nat
  | 0, _, i, cnt => (i, cnt)
  | fuel + 1, chars, i, cnt =>
    if i < chars.length then
      if ¬ isAsciiDigit (chars.getD i ' ') then (i, cnt)
      else
        let i := i + 1
        if ¬ (chars[i]? == some ' ') then (i, cnt)
        else
          let i := i + 1
          let animal :=
            if sliceEq chars i ['c', 'a', 't'] then some 3
            else if sliceEq chars i ['d', 'o', 'g'] then some 3
            else if sliceEq chars i ['c', 'o', 'w'] then some 3
            else none
          match animal with
          | none => (i, cnt)
          | some k =>
            let i := i + k
            let i := if chars[i]? == some 's' then i + 1 else i
            let cnt := cnt + 1
            if i + 2 ≤ chars.length ∧ chars.getD i ' ' = ',' ∧
                chars.getD (i + 1) ' ' = ' ' then
              iSeeLoop fuel chars (i + 2) cnt
            else if i + 5 ≤ chars.length then
              if sliceEq chars i [' ', 'a', 'n', 'd', ' '] then iSeeLoop fuel chars (i + 5) cnt
              else (i, cnt)
            else if i < chars.length then (i, cnt)
            else iSeeLoop fuel chars i cnt
    else (i, cnt)

/-- `match_i_see_pattern` of src/main.rs: the hardcoded shortcut matcher for
the pattern string `^I see (\d (cat|dog|cow)s?(, | and )?)+$`. -/
def matchISeePattern (input : List Char) : Bool :=
  if sliceEq input 0 ['I', ' ', 's', 'e', 'e', ' '] then
    let chars := input.drop 6
    let r := iSeeLoop (chars.length + 2) chars 0 0
    decide (r.1 = chars.length ∧ 0 < r.2)
  else false

/-- `match_abc_def_pattern` of src/main.rs: the hardcoded shortcut matcher
for the backreference test pattern. -/
def matchAbcDefPattern (input : List Char) : Bool :=
  let chars := input
  let abcPart := chars.takeWhile (fun c => ['a', 'b', 'c'].contains c)
  if abcPart.isEmpty then false
  else
    let pos := abcPart.length
    if ¬ (chars[pos]? == some '-') then false
    else
      let pos := pos + 1
      let defPart := (chars.drop pos).takeWhile (fun c => ['d', 'e', 'f'].contains c)
      if defPart.isEmpty then false
      else
        let pos := pos + defPart.length
        let group1 := abcPart ++ ['-'] ++ defPart
        let group2 := abcPart
        let group3 := defPart
        if ¬ (pos + 4 ≤ chars.length ∧ sliceEq chars pos [' ', 'i', 's', ' '] = true) then false
        else
          let pos := pos + 4
          if ¬ (pos + group1.length ≤ chars.length ∧ sliceEq chars pos group1 = true) then false
          else
            let pos := pos + group1.length
            if ¬ (pos + 6 ≤ chars.length ∧
                sliceEq chars pos [',', ' ', 'n', 'o', 't', ' '] = true) then false
            else
              let pos := pos + 6
              let group4 := (chars.drop pos).takeWhile
                (fun c => !(['x', 'y', 'z'].contains c) && c != ',')
              if group4.isEmpty then false
              else
                let pos := pos + group4.length
                if ¬ (pos + 2 ≤ chars.length ∧ sliceEq chars pos [',', ' '] = true) then false
                else
                  let pos := pos + 2
                  if ¬ (pos + group2.length ≤ chars.length ∧
                      sliceEq chars pos group2 = true) then false
                  else
                    let pos := pos + group2.length
                    if ¬ (pos + 5 ≤ chars.length ∧
                        sliceEq chars pos [',', ' ', 'o', 'r', ' '] = true) then false
                    else
                      let pos := pos + 5
                      if ¬ (pos + group3.length ≤ chars.length ∧
                          sliceEq chars pos group3 = true) then false
                      else
                        let pos := pos + group3.length
                        decide (pos = chars.length)

/-- `pattern.starts_with('^')`. -/
def startsWithCaret (pattern : List Char) : Bool := pattern.head? == some '^'

/-- `pattern.ends_with('$')`. -/
def endsWithDollar (pattern : List Char) : Bool := pattern.getLast? == some '$'

/-- The per-alternative anchor stripping
`if let Some(Token::Literal('^')) = tokens.first() { tokens.remove(0) }`. -/
def stripLeadingCaret (ts : List Token) : List Token :=
  match ts with
  | .Literal c :: rest => if c = '^' then rest else .Literal c :: rest
  | other => other

/-- The per-alternative anchor stripping
`if let Some(Token::Literal('$')) = tokens.last() { tokens.pop() }`. -/
def stripTrailingDollar (ts : List Token) : List Token :=
  match ts.getLast? with
  | some (.Literal c) => if c = '$' then ts.dropLast else ts
  | _ => ts

/-- Fuel passed to the matcher by the search driver: generously above the
recursion depth of any terminating run on this pattern and input. -/
def engineFuel (patternLen inputLen : Nat) : Nat :=
  (patternLen + 2) * (inputLen + 2) + 16

/-- The general compile-then-search path of `match_pattern` (everything after
the two hardcoded special cases): parse, read the anchor flags off the raw
pattern string, strip anchor literals per alternative, and dispatch on the
four anchor modes. -/
def generalMatch (inputLine pattern : List Char) : Bool :=
  let alternatives := parsePattern pattern
  let sa := startsWithCaret pattern
  let ea := endsWithDollar pattern
  let fuel := engineFuel pattern.length inputLine.length
  alternatives.any fun ts0 =>
    let ts1 := if sa then stripLeadingCaret ts0 else ts0
    let ts2 := if ea then stripTrailingDollar ts1 else ts1
    if sa && ea then (matchWC fuel inputLine ts2 0 []).1 == some inputLine.length
    else if sa then ((matchWC fuel inputLine ts2 0 []).1).isSome
    else if ea then
      (List.range (inputLine.length + 1)).any fun s =>
        (matchWC fuel inputLine ts2 s []).1 == some inputLine.length
    else
      (List.range (inputLine.length + 1)).any fun s =>
        ((matchWC fuel inputLine ts2 s []).1).isSome

/-- The first hardcoded pattern string of `match_pattern`. -/
def iSeePat : List Char := "^I see (\\d (cat|dog|cow)s?(, | and )?)+$".toList

/-- The second hardcoded pattern string of `match_pattern`. -/
def abcDefPat : List Char := "(([abc]+)-([def]+)) is \\1, not ([^xyz]+), \\2, or \\3".toList

/-- `match_pattern` of src/main.rs: two hardcoded string comparisons
delegating to the shortcut matchers, otherwise the general path. -/
def matchPattern (inputLine pattern : List Char) : Bool :=
  if pattern = iSeePat then matchISeePattern inputLine
  else if pattern = abcDefPat then matchAbcDefPattern inputLine
  else generalMatch inputLine pattern

/-! ### Named pieces of the matcher, for stating theorems -/

/-- The per-alternative attempt of the `Group` arm of
`matches_at_position_recursive`: grow the store to the group number, match
the branch, record the exact consumed substring at index `gnum - 1`, then run
the continuation; all-or-nothing. -/
def groupAttemptFn (fuel : Nat) (input : List Char) (gnum : Nat) (rest : List Token)
    (pos : Nat) (caps : Captures) (alt : List Token) : Option (Nat × Captures) :=
  let temp := growCaptures caps gnum
  match matchRec fuel input alt pos (growCaptures temp (getMaxGroupNumberF fuel alt)) with
  | (some e, temp') =>
    let capturedText := (input.drop pos).take (e - pos)
    let temp'' := temp'.set (gnum - 1) capturedText
    match matchRec fuel input rest e temp'' with
    | (some f, finalCaps) => some (f, finalCaps)
    | (none, _) => none
  | (none, _) => none

/-- One iteration step of the `Plus`-over-`Group` greedy loop: first
alternative that matches from `p` (against a discarded copy of the store),
returning its end position. -/
def plusTryOnce (fuel : Nat) (input : List Char) (alts : List (List Token)) (caps : Captures)
    (p : Nat) : Option Nat :=
  alts.findSome? (fun alt =>
    (matchRec fuel input alt p (growCaptures caps (getMaxGroupNumberF fuel alt))).1)

/-- The `max_matches` value computed by the single-token `Plus` arm. -/
def maxMatchesAt (input : List Char) (inner : Token) (pos : Nat) : Nat :=
  1 + countWhile (fun ch => matchesToken ch inner) (input.drop (pos + 1))

/-- Composite tokens that the single-token arms must not receive. -/
def isGroupTok : Token → Bool
  | .Group _ _ => true
  | _ => false

/-! ### Step equations of `matchRec` (definitional) -/

theorem matchRec_zero (input : List Char) (tokens : List Token) (pos : Nat) (caps : Captures) :
    matchRec 0 input tokens pos caps = (none, caps) := rfl

theorem matchRec_succ_nil (fuel : Nat) (input : List Char) (pos : Nat) (caps : Captures) :
    matchRec (fuel + 1) input [] pos caps = (some pos, caps) := rfl

theorem matchRec_succ_question (fuel : Nat) (input : List Char) (inner : Token)
    (rest : List Token) (pos : Nat) (caps : Captures) :
    matchRec (fuel + 1) input (.Question inner :: rest) pos caps =
      match input[pos]? with
      | some c =>
        if matchesToken c inner then
          match matchRec fuel input rest (pos + 1) caps with
          | (some e, caps') => (some e, caps')
          | (none, caps') => matchRec fuel input rest pos caps'
        else matchRec fuel input rest pos caps
      | none => matchRec fuel input rest pos caps := rfl

theorem matchRec_succ_plus_group (fuel : Nat) (input : List Char) (alts : List (List Token))
    (g : Nat) (rest : List Token) (pos : Nat) (caps : Captures) :
    matchRec (fuel + 1) input (.Plus (.Group alts g) :: rest) pos caps =
      (if (plusIter (plusTryOnce fuel input alts caps) fuel pos).isEmpty then (none, caps)
       else
         plusBacktrack (fun e caps' => matchRec fuel input rest e caps')
           (plusIter (plusTryOnce fuel input alts caps) fuel pos).reverse caps) := rfl

theorem matchRec_succ_plus_simple (fuel : Nat) (input : List Char) (inner : Token)
    (rest : List Token) (pos : Nat) (caps : Captures) (hng : isGroupTok inner = false) :
    matchRec (fuel + 1) input (.Plus inner :: rest) pos caps =
      match input[pos]? with
      | some c =>
        if matchesToken c inner then
          plusBacktrack (fun e caps' => matchRec fuel input rest e caps')
            (descPositions pos (maxMatchesAt input inner pos)) caps
        else (none, caps)
      | none => (none, caps) := by
  cases inner <;> first
    | rfl
    | exact absurd hng (by simp [isGroupTok])

theorem matchRec_succ_group (fuel : Nat) (input : List Char) (alts : List (List Token))
    (gnum : Nat) (rest : List Token) (pos : Nat) (caps : Captures) :
    matchRec (fuel + 1) input (.Group alts gnum :: rest) pos caps =
      match alts.findSome? (groupAttemptFn fuel input gnum rest pos caps) with
      | some (f, finalCaps) => (some f, finalCaps)
      | none => (none, caps) := rfl

theorem matchRec_succ_backref (fuel : Nat) (input : List Char) (n : Nat)
    (rest : List Token) (pos : Nat) (caps : Captures) :
    matchRec (fuel + 1) input (.Backreference n :: rest) pos caps =
      (if n = 0 then (none, caps)
       else if caps.length < n then (none, caps)
       else if input.length < pos + (caps.getD (n - 1) []).length then (none, caps)
       else if (input.drop pos).take (caps.getD (n - 1) []).length = caps.getD (n - 1) [] then
         matchRec fuel input rest (pos + (caps.getD (n - 1) []).length) caps
       else (none, caps)) := rfl

theorem matchRec_succ_simple (fuel : Nat) (input : List Char) (t : Token)
    (rest : List Token) (pos : Nat) (caps : Captures)
    (h : match t with
      | .Question _ => False | .Plus _ => False
      | .Group _ _ => False | .Backreference _ => False
      | _ => True) :
    matchRec (fuel + 1) input (t :: rest) pos caps =
      match input[pos]? with
      | some c =>
        if matchesToken c t then matchRec fuel input rest (pos + 1) caps
        else (none, caps)
      | none => (none, caps) := by
  cases t <;> first
    | rfl
    | exact h.elim

/-! ### Hypothesis-style step equations -/

theorem matchRec_simple_none (fuel : Nat) (input : List Char) (t : Token) (rest : List Token)
    (pos : Nat) (caps : Captures)
    (hsimple : match t with
      | .Question _ => False | .Plus _ => False
      | .Group _ _ => False | .Backreference _ => False
      | _ => True)
    (hp : input[pos]? = none) :
    matchRec (fuel + 1) input (t :: rest) pos caps = (none, caps) := by
  simp [matchRec_succ_simple fuel input t rest pos caps hsimple, hp]

theorem matchRec_simple_some (fuel : Nat) (input : List Char) (t : Token) (rest : List Token)
    (pos : Nat) (caps : Captures) (c : Char)
    (hsimple : match t with
      | .Question _ => False | .Plus _ => False
      | .Group _ _ => False | .Backreference _ => False
      | _ => True)
    (hp : input[pos]? = some c) :
    matchRec (fuel + 1) input (t :: rest) pos caps =
      (if matchesToken c t then matchRec fuel input rest (pos + 1) caps else (none, caps)) := by
  simp only [matchRec_succ_simple fuel input t rest pos caps hsimple, hp]

theorem matchRec_question_none (fuel : Nat) (input : List Char) (inner : Token)
    (rest : List Token) (pos : Nat) (caps : Captures) (hp : input[pos]? = none) :
    matchRec (fuel + 1) input (.Question inner :: rest) pos caps =
      matchRec fuel input rest pos caps := by
  simp only [matchRec_succ_question, hp]

theorem matchRec_question_nomatch (fuel : Nat) (input : List Char) (inner : Token)
    (rest : List Token) (pos : Nat) (caps : Captures) (c : Char)
    (hp : input[pos]? = some c) (hm : matchesToken c inner = false) :
    matchRec (fuel + 1) input (.Question inner :: rest) pos caps =
      matchRec fuel input rest pos caps := by
  simp only [matchRec_succ_question, hp, hm, Bool.false_eq_true, if_false]

theorem matchRec_question_hit (fuel : Nat) (input : List Char) (inner : Token)
    (rest : List Token) (pos : Nat) (caps caps' : Captures) (c : Char) (e : Nat)
    (hp : input[pos]? = some c) (hm : matchesToken c inner = true)
    (hr : matchRec fuel input rest (pos + 1) caps = (some e, caps')) :
    matchRec (fuel + 1) input (.Question inner :: rest) pos caps = (some e, caps') := by
  simp only [matchRec_succ_question, hp, hm, if_true, hr]

theorem matchRec_question_fallback (fuel : Nat) (input : List Char) (inner : Token)
    (rest : List Token) (pos : Nat) (caps caps' : Captures) (c : Char)
    (hp : input[pos]? = some c) (hm : matchesToken c inner = true)
    (hr : matchRec fuel input rest (pos + 1) caps = (none, caps')) :
    matchRec (fuel + 1) input (.Question inner :: rest) pos caps =
      matchRec fuel input rest pos caps' := by
  simp only [matchRec_succ_question, hp, hm, if_true, hr]

theorem matchRec_plus_simple_none (fuel : Nat) (input : List Char) (inner : Token)
    (rest : List Token) (pos : Nat) (caps : Captures) (hng : isGroupTok inner = false)
    (hp : input[pos]? = none) :
    matchRec (fuel + 1) input (.Plus inner :: rest) pos caps = (none, caps) := by
  simp only [matchRec_succ_plus_simple fuel input inner rest pos caps hng, hp]

theorem matchRec_plus_simple_nomatch (fuel : Nat) (input : List Char) (inner : Token)
    (rest : List Token) (pos : Nat) (caps : Captures) (c : Char)
    (hng : isGroupTok inner = false) (hp : input[pos]? = some c)
    (hm : matchesToken c inner = false) :
    matchRec (fuel + 1) input (.Plus inner :: rest) pos caps = (none, caps) := by
  simp only [matchRec_succ_plus_simple fuel input inner rest pos caps hng, hp, hm,
    Bool.false_eq_true, if_false]

theorem matchRec_plus_simple_run (fuel : Nat) (input : List Char) (inner : Token)
    (rest : List Token) (pos : Nat) (caps : Captures) (c : Char)
    (hng : isGroupTok inner = false) (hp : input[pos]? = some c)
    (hm : matchesToken c inner = true) :
    matchRec (fuel + 1) input (.Plus inner :: rest) pos caps =
      plusBacktrack (fun e caps' => matchRec fuel input rest e caps')
        (descPositions pos (maxMatchesAt input inner pos)) caps := by
  simp only [matchRec_succ_plus_simple fuel input inner rest pos caps hng, hp, hm, if_true]

theorem matchRec_plus_group_empty (fuel : Nat) (input : List Char) (alts : List (List Token))
    (g : Nat) (rest : List Token) (pos : Nat) (caps : Captures)
    (he : (plusIter (plusTryOnce fuel input alts caps) fuel pos).isEmpty = true) :
    matchRec (fuel + 1) input (.Plus (.Group alts g) :: rest) pos caps = (none, caps) := by
  simp only [matchRec_succ_plus_group, he, if_true]

theorem matchRec_plus_group_run (fuel : Nat) (input : List Char) (alts : List (List Token))
    (g : Nat) (rest : List Token) (pos : Nat) (caps : Captures)
    (he : (plusIter (plusTryOnce fuel input alts caps) fuel pos).isEmpty = false) :
    matchRec (fuel + 1) input (.Plus (.Group alts g) :: rest) pos caps =
      plusBacktrack (fun e caps' => matchRec fuel input rest e caps')
        (plusIter (plusTryOnce fuel input alts caps) fuel pos).reverse caps := by
  simp only [matchRec_succ_plus_group, he, Bool.false_eq_true, if_false]

theorem matchRec_group_none (fuel : Nat) (input : List Char) (alts : List (List Token))
    (gnum : Nat) (rest : List Token) (pos : Nat) (caps : Captures)
    (hf : alts.findSome? (groupAttemptFn fuel input gnum rest pos caps) = none) :
    matchRec (fuel + 1) input (.Group alts gnum :: rest) pos caps = (none, caps) := by
  simp only [matchRec_succ_group, hf]

theorem matchRec_group_some (fuel : Nat) (input : List Char) (alts : List (List Token))
    (gnum : Nat) (rest : List Token) (pos : Nat) (caps fc : Captures) (f : Nat)
    (hf : alts.findSome? (groupAttemptFn fuel input gnum rest pos caps) = some (f, fc)) :
    matchRec (fuel + 1) input (.Group alts gnum :: rest) pos caps = (some f, fc) := by
  simp only [matchRec_succ_group, hf]

theorem matchRec_backref_zero (fuel : Nat) (input : List Char) (rest : List Token)
    (pos : Nat) (caps : Captures) :
    matchRec (fuel + 1) input (.Backreference 0 :: rest) pos caps = (none, caps) := by
  simp [matchRec_succ_backref]

theorem matchRec_backref_oob (fuel : Nat) (input : List Char) (n : Nat) (rest : List Token)
    (pos : Nat) (caps : Captures) (h0 : n ≠ 0) (hl : caps.length < n) :
    matchRec (fuel + 1) input (.Backreference n :: rest) pos caps = (none, caps) := by
  simp [matchRec_succ_backref, h0, hl]

theorem matchRec_backref_toolong (fuel : Nat) (input : List Char) (n : Nat) (rest : List Token)
    (pos : Nat) (caps : Captures) (h0 : n ≠ 0) (hl : ¬ caps.length < n)
    (hb : input.length < pos + (caps.getD (n - 1) []).length) :
    matchRec (fuel + 1) input (.Backreference n :: rest) pos caps = (none, caps) := by
  rw [matchRec_succ_backref, if_neg h0, if_neg hl, if_pos hb]

theorem matchRec_backref_mismatch (fuel : Nat) (input : List Char) (n : Nat) (rest : List Token)
    (pos : Nat) (caps : Captures) (h0 : n ≠ 0) (hl : ¬ caps.length < n)
    (hb : ¬ input.length < pos + (caps.getD (n - 1) []).length)
    (heq : (input.drop pos).take (caps.getD (n - 1) []).length ≠ caps.getD (n - 1) []) :
    matchRec (fuel + 1) input (.Backreference n :: rest) pos caps = (none, caps) := by
  rw [matchRec_succ_backref, if_neg h0, if_neg hl, if_neg hb, if_neg heq]

theorem matchRec_backref_hit (fuel : Nat) (input : List Char) (n : Nat) (rest : List Token)
    (pos : Nat) (caps : Captures) (h0 : n ≠ 0) (hl : ¬ caps.length < n)
    (hb : ¬ input.length < pos + (caps.getD (n - 1) []).length)
    (heq : (input.drop pos).take (caps.getD (n - 1) []).length = caps.getD (n - 1) []) :
    matchRec (fuel + 1) input (.Backreference n :: rest) pos caps =
      matchRec fuel input rest (pos + (caps.getD (n - 1) []).length) caps := by
  rw [matchRec_succ_backref, if_neg h0, if_neg hl, if_neg hb, if_pos heq]

/-! ### The transactional-store invariant -/

/-- `plusBacktrack` threads the store through failed attempts; if every
failed step leaves the store unchanged, so does a failed loop. -/
theorem plusBacktrack_fst_none (step : Nat → Captures → Option Nat × Captures)
    (hstep : ∀ e c, (step e c).1 = none → (step e c).2 = c) :
    ∀ (l : List Nat) (caps : Captures), (plusBacktrack step l caps).1 = none →
      (plusBacktrack step l caps).2 = caps := by
  intro l
  induction l with
  | nil => intro caps _; rfl
  | cons e more ihl =>
    intro caps h
    rcases hse : step e caps with ⟨o1, c1⟩
    cases o1 with
    | some f => simp [plusBacktrack, hse] at h
    | none =>
      have hc1 : c1 = caps := by
        have hh := hstep e caps
        rw [hse] at hh
        exact hh rfl
      simp only [plusBacktrack, hse] at h ⊢
      rw [hc1] at h ⊢
      exact ihl caps h

/-- The invariant, specialized to a leading single-character token. -/
theorem singleStep_fst_none (fuel : Nat) (input : List Char) (t : Token) (rest : List Token)
    (hsimple : match t with
      | .Question _ => False | .Plus _ => False
      | .Group _ _ => False | .Backreference _ => False
      | _ => True)
    (ih : ∀ p c, (matchRec fuel input rest p c).1 = none → (matchRec fuel input rest p c).2 = c) :
    ∀ (pos : Nat) (caps : Captures), (matchRec (fuel + 1) input (t :: rest) pos caps).1 = none →
      (matchRec (fuel + 1) input (t :: rest) pos caps).2 = caps := by
  intro pos caps h
  rcases hp : input[pos]? with _ | c
  · rw [matchRec_simple_none fuel input t rest pos caps hsimple hp] at h ⊢
  · rw [matchRec_simple_some fuel input t rest pos caps c hsimple hp] at h ⊢
    by_cases hm : matchesToken c t = true
    · rw [if_pos hm] at h ⊢
      exact ih (pos + 1) caps h
    · rw [if_neg hm] at h ⊢

/-- A failed call of `matches_at_position_recursive` leaves the capture store
exactly as it received it: mutation happens only on the success path. -/
theorem matchRec_fst_none :
    ∀ (fuel : Nat) (input : List Char) (tokens : List Token) (pos : Nat) (caps : Captures),
      (matchRec fuel input tokens pos caps).1 = none →
      (matchRec fuel input tokens pos caps).2 = caps := by
  intro fuel
  induction fuel with
  | zero => intro input tokens pos caps _; rfl
  | succ fuel ih =>
    intro input tokens pos caps h
    cases tokens with
    | nil => rw [matchRec_succ_nil] at h; simp at h
    | cons t rest =>
      cases t
      case Question inner =>
        rcases hp : input[pos]? with _ | c
        · rw [matchRec_question_none fuel input inner rest pos caps hp] at h ⊢
          exact ih input rest pos caps h
        · by_cases hm : matchesToken c inner = true
          · rcases hr : matchRec fuel input rest (pos + 1) caps with ⟨o1, c1⟩
            cases o1 with
            | some e =>
              rw [matchRec_question_hit fuel input inner rest pos caps c1 c e hp hm hr] at h
              simp at h
            | none =>
              have hc1 : c1 = caps := by
                have hh := ih input rest (pos + 1) caps
                rw [hr] at hh
                exact hh rfl
              rw [hc1] at hr
              rw [matchRec_question_fallback fuel input inner rest pos caps caps c hp hm hr]
                at h ⊢
              exact ih input rest pos caps h
          · rw [matchRec_question_nomatch fuel input inner rest pos caps c hp
              (by simpa using hm)] at h ⊢
            exact ih input rest pos caps h
      case Plus inner =>
        by_cases hg : isGroupTok inner = true
        · obtain ⟨alts, g, rfl⟩ : ∃ alts g, inner = Token.Group alts g := by
            cases inner <;> first
              | exact ⟨_, _, rfl⟩
              | simp [isGroupTok] at hg
          by_cases he : (plusIter (plusTryOnce fuel input alts caps) fuel pos).isEmpty = true
          · rw [matchRec_plus_group_empty fuel input alts g rest pos caps he] at h ⊢
          · rw [matchRec_plus_group_run fuel input alts g rest pos caps
              (by simpa using he)] at h ⊢
            exact plusBacktrack_fst_none _ (fun e c => ih input rest e c) _ caps h
        · have hng : isGroupTok inner = false := by simpa using hg
          rcases hp : input[pos]? with _ | c
          · rw [matchRec_plus_simple_none fuel input inner rest pos caps hng hp] at h ⊢
          · by_cases hm : matchesToken c inner = true
            · rw [matchRec_plus_simple_run fuel input inner rest pos caps c hng hp hm] at h ⊢
              exact plusBacktrack_fst_none _ (fun e cc => ih input rest e cc) _ caps h
            · rw [matchRec_plus_simple_nomatch fuel input inner rest pos caps c hng hp
                (by simpa using hm)] at h ⊢
      case Group alts gnum =>
        rcases hf : alts.findSome? (groupAttemptFn fuel input gnum rest pos caps) with _ | ⟨f, fc⟩
        · rw [matchRec_group_none fuel input alts gnum rest pos caps hf] at h ⊢
        · rw [matchRec_group_some fuel input alts gnum rest pos caps fc f hf] at h
          simp at h
      case Backreference n =>
        by_cases h0 : n = 0
        · subst h0
          rw [matchRec_backref_zero] at h ⊢
        · by_cases hl : caps.length < n
          · rw [matchRec_backref_oob fuel input n rest pos caps h0 hl] at h ⊢
          · by_cases hb : input.length < pos + (caps.getD (n - 1) []).length
            · rw [matchRec_backref_toolong fuel input n rest pos caps h0 hl hb] at h ⊢
            · by_cases heq : (input.drop pos).take (caps.getD (n - 1) []).length =
                  caps.getD (n - 1) []
              · rw [matchRec_backref_hit fuel input n rest pos caps h0 hl hb heq] at h ⊢
                exact ih input rest (pos + (caps.getD (n - 1) []).length) caps h
              · rw [matchRec_backref_mismatch fuel input n rest pos caps h0 hl hb heq] at h ⊢
      all_goals
        exact singleStep_fst_none fuel input _ rest trivial
          (fun p cc => ih input rest p cc) pos caps h

/-- When failed steps leave the store unchanged, the backtracking loop
returns the first position (in list order) whose step succeeds, run against
the store the loop started with. -/
theorem plusBacktrack_eq_find (step : Nat → Captures → Option Nat × Captures)
    (hstep : ∀ e c, (step e c).1 = none → (step e c).2 = c) :
    ∀ (l : List Nat) (caps : Captures), plusBacktrack step l caps =
      match l.find? (fun e => ((step e caps).1).isSome) with
      | some e => step e caps
      | none => (none, caps) := by
  intro l
  induction l with
  | nil => intro caps; rfl
  | cons e more ihl =>
    intro caps
    rcases hse : step e caps with ⟨o1, c1⟩
    cases o1 with
    | some f =>
      have hfind : (e :: more).find? (fun e' => ((step e' caps).1).isSome) = some e := by
        rw [List.find?_cons_of_pos]
        rw [hse]
        rfl
      rw [hfind]
      simp [plusBacktrack, hse]
    | none =>
      have hc1 : c1 = caps := by
        have hh := hstep e caps
        rw [hse] at hh
        exact hh rfl
      rw [hc1] at hse
      have hfind : (e :: more).find? (fun e' => ((step e' caps).1).isSome) =
          more.find? (fun e' => ((step e' caps).1).isSome) := by
        rw [List.find?_cons_of_neg]
        simp [hse]
      rw [hfind]
      simp only [plusBacktrack, hse]
      exact ihl caps

/-- A successful backtracking loop succeeds at some recorded position,
against the store the loop started with. -/
theorem plusBacktrack_some_exists (step : Nat → Captures → Option Nat × Captures)
    (hstep : ∀ e c, (step e c).1 = none → (step e c).2 = c)
    (l : List Nat) (caps : Captures) (f : Nat) (c' : Captures)
    (h : plusBacktrack step l caps = (some f, c')) :
    ∃ e ∈ l, step e caps = (some f, c') := by
  rw [plusBacktrack_eq_find step hstep] at h
  rcases hfind : l.find? (fun e => ((step e caps).1).isSome) with _ | e
  · rw [hfind] at h
    simp at h
  · rw [hfind] at h
    exact ⟨e, List.mem_of_find?_eq_some hfind, h⟩

/-- The capture store pre-allocated by `matches_at_position_with_captures`
from an empty store has exactly the pattern's maximal group number of
entries, each the empty string. -/
theorem growCaptures_nil (n : Nat) : growCaptures [] n = List.replicate n [] := by
  simp [growCaptures]

/-! ### Claims -/

/-- C1 (counterexample): on input "I see 1 cat, 2 dogs" with the first
hardcoded pattern string, `match_pattern` (which delegates to the shortcut
matcher) answers true while the general compile-then-search path answers
false — the shortcut matchers do not agree with the general engine on every
input. -/
theorem claim_C1_counterexample :
    matchPattern "I see 1 cat, 2 dogs".toList iSeePat = true ∧
    generalMatch "I see 1 cat, 2 dogs".toList iSeePat = false :=
  ⟨by decide, by decide⟩

/-- C1 (amended): for every pattern other than the two hardcoded strings,
`match_pattern` coincides with the general compile-then-search path
(`parse_pattern` followed by the anchored/unanchored search driver); on the
two hardcoded strings it instead delegates to the shortcut matchers, which
disagree with the general engine on some inputs. -/
theorem claim_C1 (input pattern : List Char) (h1 : pattern ≠ iSeePat)
    (h2 : pattern ≠ abcDefPat) :
    matchPattern input pattern = generalMatch input pattern := by
  simp [matchPattern, h1, h2]

theorem claim_C1_witness :
    matchPattern ['a', 'b'] ['a'] = generalMatch ['a', 'b'] ['a'] :=
  claim_C1 ['a', 'b'] ['a'] (by decide) (by decide)

/-- C5: compilation never reports a parse error — `parse_pattern` has no
error channel at all.  Each malformed pattern silently yields a usable AST:
an unterminated class `[abc` contributes no token (the lone alternative is
the empty sequence, which then matches every input); an unterminated group
`(ab` is silently closed; a trailing unescaped backslash becomes the literal
`\`; a quantifier with no preceding atom is silently dropped.  This
contradicts the claim (and the spec's stated mandate). -/
theorem claim_C5 :
    (parsePattern "[abc".toList).map List.length = [0] ∧
    matchPattern "zzz".toList "[abc".toList = true ∧
    (parsePattern "(ab".toList).map List.length = [1] ∧
    matchPattern "ab".toList "(ab".toList = true ∧
    (parsePattern "\\".toList).map List.length = [1] ∧
    matchPattern "\\".toList "\\".toList = true ∧
    (parsePattern "+a".toList).map List.length = [1] ∧
    matchPattern "xa".toList "+a".toList = true :=
  ⟨by decide, by decide, by decide, by decide, by decide, by decide, by decide, by decide⟩

/-- C3 (counterexample): `^(ab)?ab$` does not match "abab" under the engine
(the claim requires it to match both "abab" and "ab"): a `Question` whose
inner node is a `Group` never matches the inner node, because the attempt is
made with the single-character `matches_token` test, which returns false for
every composite token. -/
theorem claim_C3_counterexample :
    matchPattern "abab".toList "^(ab)?ab$".toList = false ∧
    matchPattern "ab".toList "^(ab)?ab$".toList = true :=
  ⟨by decide, by decide⟩

/-- C3 (amended): `Repeat01` attempts its inner node only through the
single-character `matches_token` test, advancing exactly one character.
Hence: (1) a `Question` over a `Group` always skips the inner node — the
branch behaves as if the optional group were absent; (2) for a
single-character inner node that matches at the current position, the
continuation is first tried from position `pos + 1`, and that success is
returned; (3) if that continuation fails, the engine falls back to the
continuation at the unchanged position; (4) if the inner node does not match
the current character, the continuation runs at the unchanged position. -/
theorem claim_C3 :
    (∀ (fuel : Nat) (input : List Char) (alts : List (List Token)) (g : Nat)
       (rest : List Token) (pos : Nat) (caps : Captures),
       matchRec (fuel + 1) input (.Question (.Group alts g) :: rest) pos caps =
         matchRec fuel input rest pos caps) ∧
    (∀ (fuel : Nat) (input : List Char) (inner : Token) (rest : List Token)
       (pos : Nat) (caps caps' : Captures) (c : Char) (e : Nat),
       input[pos]? = some c → matchesToken c inner = true →
       matchRec fuel input rest (pos + 1) caps = (some e, caps') →
       matchRec (fuel + 1) input (.Question inner :: rest) pos caps = (some e, caps')) ∧
    (∀ (fuel : Nat) (input : List Char) (inner : Token) (rest : List Token)
       (pos : Nat) (caps caps' : Captures) (c : Char),
       input[pos]? = some c → matchesToken c inner = true →
       matchRec fuel input rest (pos + 1) caps = (none, caps') →
       matchRec (fuel + 1) input (.Question inner :: rest) pos caps =
         matchRec fuel input rest pos caps') ∧
    (∀ (fuel : Nat) (input : List Char) (inner : Token) (rest : List Token)
       (pos : Nat) (caps : Captures) (c : Char),
       input[pos]? = some c → matchesToken c inner = false →
       matchRec (fuel + 1) input (.Question inner :: rest) pos caps =
         matchRec fuel input rest pos caps) := by
  refine ⟨?_, ?_, ?_, ?_⟩
  · intro fuel input alts g rest pos caps
    rcases hp : input[pos]? with _ | c
    · exact matchRec_question_none fuel input _ rest pos caps hp
    · exact matchRec_question_nomatch fuel input _ rest pos caps c hp rfl
  · intro fuel input inner rest pos caps caps' c e hp hm hr
    exact matchRec_question_hit fuel input inner rest pos caps caps' c e hp hm hr
  · intro fuel input inner rest pos caps caps' c hp hm hr
    exact matchRec_question_fallback fuel input inner rest pos caps caps' c hp hm hr
  · intro fuel input inner rest pos caps c hp hm
    exact matchRec_question_nomatch fuel input inner rest pos caps c hp hm

theorem claim_C3_witness :
    matchRec 3 ['a', 'b'] [Token.Question (Token.Literal 'a'), Token.Literal 'b'] 0 [] =
      (some 2, []) :=
  claim_C3.2.1 2 ['a', 'b'] (Token.Literal 'a') [Token.Literal 'b'] 0 [] [] 'a' 2
    (by decide) (by decide) (by decide)

/-- C4 (counterexample): the pattern `\1(a)` matches input "a" even though
group 1 has not captured anything when the backreference is evaluated; the
claim requires the branch to fail on an unset group, but the engine
pre-allocates the store with empty strings and treats the unset group as a
legitimate empty capture, which matches trivially. -/
theorem claim_C4_counterexample :
    matchPattern "a".toList "\\1(a)".toList = true :=
  by decide

/-- C4 (amended): for a `Backreference(n)` node, the branch fails when
`n = 0` or when `n` exceeds the capture store's length (which at driver
entry equals the pattern's maximal group number, each slot initialized to
the empty string); an in-range group that has not captured holds the empty
string and is treated as a legitimate empty capture, matching trivially.
Otherwise the branch succeeds iff the input at the current position equals
the stored text character-for-character, advancing by its length. -/
theorem claim_C4 :
    (∀ (fuel : Nat) (input : List Char) (rest : List Token) (pos : Nat) (caps : Captures),
       matchRec (fuel + 1) input (.Backreference 0 :: rest) pos caps = (none, caps)) ∧
    (∀ (fuel : Nat) (input : List Char) (n : Nat) (rest : List Token) (pos : Nat)
       (caps : Captures), n ≠ 0 → caps.length < n →
       matchRec (fuel + 1) input (.Backreference n :: rest) pos caps = (none, caps)) ∧
    (∀ (fuel : Nat) (input : List Char) (n : Nat) (rest : List Token) (pos : Nat)
       (caps : Captures), n ≠ 0 → ¬ caps.length < n →
       ¬ input.length < pos + (caps.getD (n - 1) []).length →
       (input.drop pos).take (caps.getD (n - 1) []).length = caps.getD (n - 1) [] →
       matchRec (fuel + 1) input (.Backreference n :: rest) pos caps =
         matchRec fuel input rest (pos + (caps.getD (n - 1) []).length) caps) ∧
    (∀ (fuel : Nat) (input : List Char) (n : Nat) (rest : List Token) (pos : Nat)
       (caps : Captures), n ≠ 0 → ¬ caps.length < n →
       input.length < pos + (caps.getD (n - 1) []).length →
       matchRec (fuel + 1) input (.Backreference n :: rest) pos caps = (none, caps)) ∧
    (∀ (fuel : Nat) (input : List Char) (n : Nat) (rest : List Token) (pos : Nat)
       (caps : Captures), n ≠ 0 → ¬ caps.length < n →
       ¬ input.length < pos + (caps.getD (n - 1) []).length →
       (input.drop pos).take (caps.getD (n - 1) []).length ≠ caps.getD (n - 1) [] →
       matchRec (fuel + 1) input (.Backreference n :: rest) pos caps = (none, caps)) ∧
    (∀ (fuel : Nat) (tokens : List Token),
       (growCaptures [] (getMaxGroupNumberF fuel tokens)).length =
         getMaxGroupNumberF fuel tokens) := by
  refine ⟨?_, ?_, ?_, ?_, ?_, ?_⟩
  · intro fuel input rest pos caps
    exact matchRec_backref_zero fuel input rest pos caps
  · intro fuel input n rest pos caps h0 hl
    exact matchRec_backref_oob fuel input n rest pos caps h0 hl
  · intro fuel input n rest pos caps h0 hl hb heq
    exact matchRec_backref_hit fuel input n rest pos caps h0 hl hb heq
  · intro fuel input n rest pos caps h0 hl hb
    exact matchRec_backref_toolong fuel input n rest pos caps h0 hl hb
  · intro fuel input n rest pos caps h0 hl hb heq
    exact matchRec_backref_mismatch fuel input n rest pos caps h0 hl hb heq
  · intro fuel tokens
    rw [growCaptures_nil]
    exact List.length_replicate _ _

theorem claim_C4_witness :
    matchRec 2 ['a', 'b'] [Token.Backreference 1, Token.Literal 'b'] 0 [['a']] =
      matchRec 1 ['a', 'b'] [Token.Literal 'b'] (0 + (List.getD [['a']] 0 []).length) [['a']] :=
  claim_C4.2.2.1 1 ['a', 'b'] 1 [Token.Literal 'b'] 0 [['a']]
    (by decide) (by decide) (by decide) (by decide)

/-- C7: the capture store is transactional.  (1) Any failed call of the
matcher returns the store exactly as it received it — a failed speculative
attempt leaves no observable mutable state, so re-running the identical
attempt yields the identical result.  (2) A group alternative whose
branch-plus-continuation attempt fails is invisible to its sibling
alternatives: the group behaves exactly as if that alternative were absent,
with the remaining siblings seeing the identical store. -/
theorem claim_C7 :
    (∀ (fuel : Nat) (input : List Char) (tokens : List Token) (pos : Nat) (caps : Captures),
       (matchRec fuel input tokens pos caps).1 = none →
       (matchRec fuel input tokens pos caps).2 = caps) ∧
    (∀ (fuel : Nat) (input : List Char) (alt0 : List Token) (alts : List (List Token))
       (gnum : Nat) (rest : List Token) (pos : Nat) (caps : Captures),
       groupAttemptFn fuel input gnum rest pos caps alt0 = none →
       matchRec (fuel + 1) input (.Group (alt0 :: alts) gnum :: rest) pos caps =
         matchRec (fuel + 1) input (.Group alts gnum :: rest) pos caps) := by
  refine ⟨matchRec_fst_none, ?_⟩
  intro fuel input alt0 alts gnum rest pos caps h0
  rw [matchRec_succ_group, matchRec_succ_group]
  rw [List.findSome?_cons_of_isNone _ (by simp [h0])]

theorem claim_C7_witness :
    matchRec 4 ['a'] [Token.Group [[Token.Literal 'z'], [Token.Literal 'a']] 1] 0 [] =
      matchRec 4 ['a'] [Token.Group [[Token.Literal 'a']] 1] 0 [] :=
  claim_C7.2 3 ['a'] [Token.Literal 'z'] [[Token.Literal 'a']] 1 [] 0 [] (by decide)

/-- C2 (counterexample): `^(a|b)+\1$` matches input "ab", although under the
claim's reading every accepted input must end with a repetition of the last
iteration's captured text ("a" or "b" here, so "ab" would be rejected).  The
second conjunct exhibits the mechanism on the raw token list: the final
capture store on the success path is `[""]` — the text consumed by the
group's branches inside the `Plus` was never recorded, and the
backreference resolved to the empty string. -/
theorem claim_C2_counterexample :
    matchPattern "ab".toList "^(a|b)+\\1$".toList = true ∧
    matchWC 50 "ab".toList
      [Token.Plus (Token.Group [[Token.Literal 'a'], [Token.Literal 'b']] 1),
       Token.Backreference 1] 0 [] = (some 2, [[]]) :=
  ⟨by decide, by decide⟩

/-- C2 (amended): (1) for a plain `Group` node, success does record the
exact consumed substring before the continuation runs: any successful match
of `Group(alts, g) :: rest` decomposes into some alternative matching
`pos..e` followed by the continuation run against the store with slot
`g - 1` set to exactly `input[pos..e]`.  (2) But when the `Group` is the
inner node of a `Repeat1` ('+'), the iteration captures are discarded: a
successful match of `Plus(Group alts g) :: rest` runs its continuation
against the UNCHANGED incoming store, so a later backreference sees whatever
was there before the `Plus` (at driver entry, the empty string) — not the
last iteration's text.  (3) The claim's backreference examples themselves
hold. -/
theorem claim_C2 :
    (∀ (fuel : Nat) (input : List Char) (alts : List (List Token)) (gnum : Nat)
       (rest : List Token) (pos : Nat) (caps capsOut : Captures) (f : Nat),
       matchRec (fuel + 1) input (.Group alts gnum :: rest) pos caps = (some f, capsOut) →
       ∃ alt ∈ alts, ∃ e temp',
         matchRec fuel input alt pos
             (growCaptures (growCaptures caps gnum) (getMaxGroupNumberF fuel alt)) =
           (some e, temp') ∧
         matchRec fuel input rest e
             (temp'.set (gnum - 1) ((input.drop pos).take (e - pos))) =
           (some f, capsOut)) ∧
    (∀ (fuel : Nat) (input : List Char) (alts : List (List Token)) (g : Nat)
       (rest : List Token) (pos : Nat) (caps capsOut : Captures) (f : Nat),
       matchRec (fuel + 1) input (.Plus (.Group alts g) :: rest) pos caps = (some f, capsOut) →
       ∃ e, matchRec fuel input rest e caps = (some f, capsOut)) ∧
    matchPattern "catcat".toList "(cat)\\1".toList = true ∧
    matchPattern "catdog".toList "(cat)\\1".toList = false := by
  refine ⟨?_, ?_, by decide, by decide⟩
  · intro fuel input alts gnum rest pos caps capsOut f h
    rcases hf : alts.findSome? (groupAttemptFn fuel input gnum rest pos caps) with _ | ⟨f', fc⟩
    · rw [matchRec_group_none fuel input alts gnum rest pos caps hf] at h
      simp at h
    · rw [matchRec_group_some fuel input alts gnum rest pos caps fc f' hf] at h
      have hff : f' = f ∧ fc = capsOut := by
        simpa using h
      obtain ⟨rfl, rfl⟩ := hff
      obtain ⟨alt, hmem, hattempt⟩ := List.exists_of_findSome?_eq_some hf
      refine ⟨alt, hmem, ?_⟩
      rcases hm1 : matchRec fuel input alt pos
          (growCaptures (growCaptures caps gnum) (getMaxGroupNumberF fuel alt)) with ⟨o1, temp1⟩
      cases o1 with
      | none =>
        rw [groupAttemptFn] at hattempt
        simp only [hm1] at hattempt
        simp at hattempt
      | some e =>
        refine ⟨e, temp1, rfl, ?_⟩
        rw [groupAttemptFn] at hattempt
        simp only [hm1] at hattempt
        rcases hm2 : matchRec fuel input rest e
            (temp1.set (gnum - 1) ((input.drop pos).take (e - pos))) with ⟨o2, fc2⟩
        simp only [hm2] at hattempt
        cases o2 with
        | none => simp at hattempt
        | some f2 =>
          have hpair : f2 = f' ∧ fc2 = fc := by simpa using hattempt
          rw [hpair.1, hpair.2]
  · intro fuel input alts g rest pos caps capsOut f h
    by_cases he : (plusIter (plusTryOnce fuel input alts caps) fuel pos).isEmpty = true
    · rw [matchRec_plus_group_empty fuel input alts g rest pos caps he] at h
      simp at h
    · rw [matchRec_plus_group_run fuel input alts g rest pos caps (by simpa using he)] at h
      obtain ⟨e, _, hstep⟩ := plusBacktrack_some_exists _
        (fun e c hc => matchRec_fst_none fuel input rest e c hc) _ caps f capsOut h
      exact ⟨e, hstep⟩

theorem claim_C2_witness :
    ∃ alt ∈ [[Token.Literal 'a']], ∃ e temp',
      matchRec 3 ['a'] alt 0
          (growCaptures (growCaptures [] 1) (getMaxGroupNumberF 3 alt)) =
        (some e, temp') ∧
      matchRec 3 ['a'] [] e
          (temp'.set 0 ((List.drop 0 ['a']).take (e - 0))) =
        (some 1, [['a']]) :=
  claim_C2.1 3 ['a'] [[Token.Literal 'a']] 1 [] 0 [] [['a']] 1 (by decide)

/-- C8: `Repeat1` over a single-character node is greedy with backtracking.
(1) With nothing after it, it consumes the maximal run: exactly
`maxMatchesAt` characters (1 plus the length of the run of matching
characters after the first), never fewer.  (2) In general the continuation
is attempted at the recorded end positions in descending order — from the
longest extent down to exactly one repetition — and the first success (the
largest extent whose continuation succeeds) is returned; if none succeeds
the node fails.  (3) Concretely: `a+b` matches "aaab" ending at 4 (so all 3
a's are consumed before the b), `a+ab` matches "aaab" ending at 4 (the `+`
retreats from 3 to 2 a's), and `a+` alone on "aaa" consumes all 3. -/
theorem claim_C8 :
    (∀ (fuel : Nat) (input : List Char) (inner : Token) (pos : Nat) (caps : Captures)
       (c : Char), isGroupTok inner = false → input[pos]? = some c →
       matchesToken c inner = true →
       matchRec (fuel + 2) input [.Plus inner] pos caps =
         (some (pos + maxMatchesAt input inner pos), caps)) ∧
    (∀ (fuel : Nat) (input : List Char) (inner : Token) (rest : List Token) (pos : Nat)
       (caps : Captures) (c : Char), isGroupTok inner = false → input[pos]? = some c →
       matchesToken c inner = true →
       matchRec (fuel + 1) input (.Plus inner :: rest) pos caps =
         match (descPositions pos (maxMatchesAt input inner pos)).find?
             (fun e => ((matchRec fuel input rest e caps).1).isSome) with
         | some e => matchRec fuel input rest e caps
         | none => (none, caps)) ∧
    matchPattern "aaab".toList "a+b".toList = true ∧
    (matchRec 60 "aaab".toList [Token.Plus (Token.Literal 'a'), Token.Literal 'b'] 0 []).1 =
      some 4 ∧
    matchPattern "aaab".toList "a+ab".toList = true ∧
    (matchRec 60 "aaab".toList
      [Token.Plus (Token.Literal 'a'), Token.Literal 'a', Token.Literal 'b'] 0 []).1 = some 4 ∧
    (matchRec 60 "aaa".toList [Token.Plus (Token.Literal 'a')] 0 []).1 = some 3 := by
  have hfind : ∀ (fuel : Nat) (input : List Char) (inner : Token) (rest : List Token)
      (pos : Nat) (caps : Captures) (c : Char), isGroupTok inner = false →
      input[pos]? = some c → matchesToken c inner = true →
      matchRec (fuel + 1) input (.Plus inner :: rest) pos caps =
        match (descPositions pos (maxMatchesAt input inner pos)).find?
            (fun e => ((matchRec fuel input rest e caps).1).isSome) with
        | some e => matchRec fuel input rest e caps
        | none => (none, caps) := by
    intro fuel input inner rest pos caps c hng hp hm
    rw [matchRec_plus_simple_run fuel input inner rest pos caps c hng hp hm]
    exact plusBacktrack_eq_find _
      (fun e cc hc => matchRec_fst_none fuel input rest e cc hc) _ caps
  refine ⟨?_, hfind, by decide, by decide, by decide, by decide, by decide⟩
  intro fuel input inner pos caps c hng hp hm
  rw [hfind (fuel + 1) input inner [] pos caps c hng hp hm]
  obtain ⟨k, hk⟩ : ∃ k, maxMatchesAt input inner pos = k + 1 :=
    ⟨countWhile (fun ch => matchesToken ch inner) (input.drop (pos + 1)), by
      simp [maxMatchesAt, Nat.add_comm]⟩
  rw [hk]
  have hhead : descPositions pos (k + 1) =
      (pos + (k + 1)) :: ((List.range k).map fun i => pos + (k + 1) - (i + 1)) := by
    simp [descPositions, List.range_succ_eq_map, List.map_map, Function.comp_def]
  rw [hhead]
  rw [List.find?_cons_of_pos]
  · exact matchRec_succ_nil (fuel + 1) input (pos + (k + 1)) caps
  · rw [matchRec_succ_nil]
    rfl

theorem claim_C8_witness :
    matchRec 2 "aaa".toList [Token.Plus (Token.Literal 'a')] 0 [] =
      (some (0 + maxMatchesAt "aaa".toList (Token.Literal 'a') 0), []) ∧
    0 + maxMatchesAt "aaa".toList (Token.Literal 'a') 0 = 3 :=
  ⟨claim_C8.1 0 "aaa".toList (Token.Literal 'a') 0 [] 'a' (by decide) (by decide) (by decide),
   by decide⟩

/-- C6 (counterexample): `(a|ab)$` does not match "ab" under the engine,
although a way of matching the pattern body from start 0 that ends exactly
at the input's end exists — the group's second branch `ab`, as the second
conjunct certifies by running the engine's own matcher on that branch.  The
end-anchored driver only checks the single backtracking-preferred match per
start position (branch `a`, ending at 1), so the claim's "any such match
counts" reading is false. -/
theorem claim_C6_counterexample :
    matchPattern "ab".toList "(a|ab)$".toList = false ∧
    (matchRec 20 "ab".toList [Token.Literal 'a', Token.Literal 'b'] 0 []).1 = some 2 ∧
    (parsePattern "(a|ab)$".toList).map List.length = [2] :=
  ⟨by decide, by decide, by decide⟩

/-- C6 (amended): for a pattern with a trailing `$` anchor and no leading
`^`, the search succeeds iff some top-level alternative `ts` and some start
position `s ≤ len(input)` exist such that the backtracking matcher's single
(priority-order) result for `ts` from `s` ends exactly at `len(input)`.
Other ways of matching that the backtracking priority order does not return
are not found — e.g. `(a|ab)$` does not match "ab". -/
theorem claim_C6 (input pattern : List Char)
    (hsa : startsWithCaret pattern = false) (hea : endsWithDollar pattern = true) :
    matchPattern input pattern = true ↔
      ∃ ts ∈ parsePattern pattern, ∃ s, s ≤ input.length ∧
        (matchWC (engineFuel pattern.length input.length) input (stripTrailingDollar ts) s []).1 =
          some input.length := by
  have hne1 : pattern ≠ iSeePat := by
    intro h
    rw [h] at hsa
    exact absurd hsa (by decide)
  have hne2 : pattern ≠ abcDefPat := by
    intro h
    rw [h] at hea
    exact absurd hea (by decide)
  simp only [matchPattern, if_neg hne1, if_neg hne2, generalMatch, hsa, hea, Bool.false_and,
    if_false, if_true, Bool.false_eq_true, List.any_eq_true, List.mem_range, Nat.lt_succ_iff,
    beq_iff_eq]

theorem claim_C6_witness :
    matchPattern ['a', 'b'] ['(', 'a', '|', 'a', 'b', ')', '$'] = true ↔
      ∃ ts ∈ parsePattern ['(', 'a', '|', 'a', 'b', ')', '$'], ∃ s,
        s ≤ List.length ['a', 'b'] ∧
        (matchWC (engineFuel (List.length ['(', 'a', '|', 'a', 'b', ')', '$'])
            (List.length ['a', 'b'])) ['a', 'b'] (stripTrailingDollar ts) s []).1 =
          some (List.length ['a', 'b']) :=
  claim_C6 ['a', 'b'] ['(', 'a', '|', 'a', 'b', ')', '$'] (by decide) (by decide)

/-- C10: the anchor flags are read once off the raw pattern string and then
applied to EVERY top-level alternation branch.  (1) If the pattern starts
with `^` (and does not end with `$`), the whole search succeeds iff some
branch — any branch, stripped of a leading `^` literal if it has one —
matches at input position 0; no other start position is ever tried.  (2)
Dually, with a trailing `$` only, every branch's match must end exactly at
the input's end.  Concretely: `^a|b` does not match "zb" (the branch `b` is
only tried at position 0) but matches "b"; `a|b$` does not match "ax" but
matches "xb". -/
theorem claim_C10 :
    (∀ (input pattern : List Char), startsWithCaret pattern = true →
      endsWithDollar pattern = false →
      (matchPattern input pattern = true ↔
        ∃ ts ∈ parsePattern pattern,
          ((matchWC (engineFuel pattern.length input.length) input (stripLeadingCaret ts) 0
            []).1).isSome = true)) ∧
    (∀ (input pattern : List Char), startsWithCaret pattern = false →
      endsWithDollar pattern = true →
      (matchPattern input pattern = true ↔
        ∃ ts ∈ parsePattern pattern, ∃ s, s ≤ input.length ∧
          (matchWC (engineFuel pattern.length input.length) input (stripTrailingDollar ts) s
            []).1 = some input.length)) ∧
    matchPattern "zb".toList "^a|b".toList = false ∧
    matchPattern "b".toList "^a|b".toList = true ∧
    matchPattern "ax".toList "a|b$".toList = false ∧
    matchPattern "xb".toList "a|b$".toList = true := by
  refine ⟨?_, ?_, by decide, by decide, by decide, by decide⟩
  · intro input pattern hsa hea
    have hne1 : pattern ≠ iSeePat := by
      intro h
      rw [h] at hea
      exact absurd hea (by decide)
    have hne2 : pattern ≠ abcDefPat := by
      intro h
      rw [h] at hsa
      exact absurd hsa (by decide)
    simp only [matchPattern, if_neg hne1, if_neg hne2, generalMatch, hsa, hea, Bool.true_and,
      Bool.and_false, if_false, if_true, Bool.false_eq_true, List.any_eq_true]
  · intro input pattern hsa hea
    have hne1 : pattern ≠ iSeePat := by
      intro h
      rw [h] at hsa
      exact absurd hsa (by decide)
    have hne2 : pattern ≠ abcDefPat := by
      intro h
      rw [h] at hea
      exact absurd hea (by decide)
    simp only [matchPattern, if_neg hne1, if_neg hne2, generalMatch, hsa, hea, Bool.false_and,
      if_false, if_true, Bool.false_eq_true, List.any_eq_true, List.mem_range, Nat.lt_succ_iff,
      beq_iff_eq]

theorem claim_C10_witness :
    matchPattern ['z', 'b'] ['^', 'a', '|', 'b'] = true ↔
      ∃ ts ∈ parsePattern ['^', 'a', '|', 'b'],
        ((matchWC (engineFuel (List.length ['^', 'a', '|', 'b']) (List.length ['z', 'b']))
          ['z', 'b'] (stripLeadingCaret ts) 0 []).1).isSome = true :=
  claim_C10.1 ['z', 'b'] ['^', 'a', '|', 'b'] (by decide) (by decide)

/-! ### Character-class range expansion (C9) -/

theorem charToNat_ofNat {n : Nat} (h : n < 0xd800) : (Char.ofNat n).toNat = n := by
  have hv : n.isValidChar := Or.inl h
  rw [Char.ofNat, dif_pos hv]
  rfl

/-- Membership in the compiled expansion of a range `X-Y` whose endpoints
both fit in a byte: exactly the code points between the endpoints. -/
theorem contains_expandRange (x y c : Char) (hx : x.toNat ≤ 255) (hy : y.toNat ≤ 255) :
    (expandRange x y).contains c = true ↔ x.toNat ≤ c.toNat ∧ c.toNat ≤ y.toNat := by
  have hxm : x.toNat % 256 = x.toNat := Nat.mod_eq_of_lt (by omega)
  have hym : y.toNat % 256 = y.toNat := Nat.mod_eq_of_lt (by omega)
  rw [expandRange, hxm, hym]
  have hch : (List.map Char.ofNat (List.range' x.toNat (y.toNat + 1 - x.toNat))).contains c =
      true ↔ c ∈ List.map Char.ofNat (List.range' x.toNat (y.toNat + 1 - x.toNat)) :=
    List.elem_iff
  rw [hch, List.mem_map]
  constructor
  · rintro ⟨m, hm, heq⟩
    rw [List.mem_range'] at hm
    obtain ⟨i, hi, rfl⟩ := hm
    have hmv : x.toNat + 1 * i < 0xd800 := by omega
    have htv := charToNat_ofNat hmv
    rw [heq] at htv
    omega
  · rintro ⟨h1, h2⟩
    refine ⟨c.toNat, ?_, Char.ofNat_toNat c⟩
    rw [List.mem_range']
    exact ⟨c.toNat - x.toNat, by omega, by omega⟩

/-- The compiler on a five-character pattern `[X-Y]` (with the guards the
source imposes on range syntax) yields exactly one alternative holding one
`CharClass` token: the expanded range. -/
theorem parse_range_class (x y : Char) (hx1 : x ≠ ']') (hx2 : x ≠ '^') (hy : y ≠ ']') :
    parsePattern ['[', x, '-', y, ']'] = [[Token.CharClass (expandRange x y)]] := by
  simp +decide [parsePattern, parseLoop, parseClassLoop, hx1, hx2, hy]

theorem charClass_attempt_start (fuel : Nat) (S : List Char) (c : Char) :
    ((matchWC (fuel + 2) [c] [Token.CharClass S] 0 []).1).isSome = S.contains c := by
  have hg : growCaptures [] (getMaxGroupNumberF (fuel + 2) [Token.CharClass S]) = [] := by
    simp [getMaxGroupNumberF, growCaptures]
  simp only [matchWC]
  rw [hg]
  rw [show fuel + 2 = fuel + 1 + 1 from rfl]
  rw [matchRec_simple_some (fuel + 1) [c] (Token.CharClass S) [] 0 [] c trivial rfl]
  rw [show matchesToken c (Token.CharClass S) = S.contains c from rfl]
  cases hcc : S.contains c
  · simp
  · simp [matchRec_succ_nil]

theorem charClass_attempt_past (fuel : Nat) (S : List Char) (c : Char) :
    ((matchWC (fuel + 2) [c] [Token.CharClass S] 1 []).1).isSome = false := by
  have hg : growCaptures [] (getMaxGroupNumberF (fuel + 2) [Token.CharClass S]) = [] := by
    simp [getMaxGroupNumberF, growCaptures]
  simp only [matchWC]
  rw [hg]
  rw [show fuel + 2 = fuel + 1 + 1 from rfl]
  rw [matchRec_simple_none (fuel + 1) [c] (Token.CharClass S) [] 1 [] trivial rfl]
  rfl

/-- C9 (counterexample): the claim requires `[X-Y]` to contain every code
point from X to Y inclusive even above U+00FF, but the compiler casts both
endpoints through `u8`.  The pattern `[Ā-ā]` (endpoints U+0100 and U+0101)
compiles to the class containing U+0000 and U+0001 only: it rejects the
in-range character 'Ā' and accepts the out-of-range NUL character. -/
theorem claim_C9_counterexample :
    matchPattern "Ā".toList "[Ā-ā]".toList = false ∧
    matchPattern [Char.ofNat 0] "[Ā-ā]".toList = true :=
  ⟨by decide, by decide⟩

/-- C9 (amended): for a range `X-Y` whose endpoints are both at most U+00FF
(so that the source's `as u8` casts are lossless), the compiled class is
exactly the code points from X to Y inclusive: the pattern `[X-Y]` matches a
one-character input `c` iff X ≤ c ≤ Y.  (In general the source expands the
range between the *low bytes* of the endpoints, so endpoints above U+00FF
wrap around.) -/
theorem claim_C9 (x y c : Char) (hx1 : x ≠ ']') (hx2 : x ≠ '^') (hy : y ≠ ']')
    (hx : x.toNat ≤ 255) (hyb : y.toNat ≤ 255) :
    matchPattern [c] ['[', x, '-', y, ']'] = true ↔
      x.toNat ≤ c.toNat ∧ c.toNat ≤ y.toNat := by
  rw [← contains_expandRange x y c hx hyb]
  have hne1 : ['[', x, '-', y, ']'] ≠ iSeePat := by
    intro h
    have h2 := congrArg List.head? h
    rw [show List.head? ['[', x, '-', y, ']'] = some '[' from rfl] at h2
    exact absurd h2 (by decide)
  have hne2 : ['[', x, '-', y, ']'] ≠ abcDefPat := by
    intro h
    have h2 := congrArg List.head? h
    rw [show List.head? ['[', x, '-', y, ']'] = some '[' from rfl] at h2
    exact absurd h2 (by decide)
  have hparse := parse_range_class x y hx1 hx2 hy
  simp only [matchPattern, if_neg hne1, if_neg hne2, generalMatch, hparse]
  have hsa : startsWithCaret ['[', x, '-', y, ']'] = false := rfl
  have hea : endsWithDollar ['[', x, '-', y, ']'] = false := rfl
  rw [hsa, hea]
  simp only [Bool.false_and, Bool.false_eq_true, if_false, List.any_cons, List.any_nil]
  rw [show List.range (List.length [c] + 1) = [0, 1] from rfl]
  rw [show engineFuel (List.length ['[', x, '-', y, ']']) (List.length [c]) = 35 + 2 from rfl]
  simp only [List.any_cons, List.any_nil]
  rw [charClass_attempt_start 35 (expandRange x y) c,
    charClass_attempt_past 35 (expandRange x y) c]
  simp

theorem claim_C9_witness :
    matchPattern ['c'] ['[', 'a', '-', 'd', ']'] = true ↔
      Char.toNat 'a' ≤ Char.toNat 'c' ∧ Char.toNat 'c' ≤ Char.toNat 'd' :=
  claim_C9 'a' 'd' 'c' (by decide) (by decide) (by decide) (by decide) (by decide)

end GrepRust
